import Mathlib

set_option maxHeartbeats 1000000
set_option maxRecDepth 100000

/-!
Shallow embedding of the Chipyard performance-testing kernels
(`ara_gemmini_compare.c` and `ara_gemmini_scalar_compare.c`).

Machine integers are modelled as `Int`/`Nat` with explicit two's-complement
wrapping where the C code works in a fixed-width type (`int32_t`, `int8_t`,
`size_t`).  Stateful C loops are embedded either as folds over index lists
(buffers as `List`) or as explicit state-passing recursion (buffers as
`Nat → Int` memories).  The Gemmini accelerator protocol is embedded as a
trace of issued operations.
-/

/-- Two's-complement wrap of an integer into the signed 32-bit range. -/
def wrap32 (x : Int) : Int := (x + 2 ^ 31) % 2 ^ 32 - 2 ^ 31

/-- C `int32_t` addition (used by the accumulations in the kernels). -/
def add32 (a b : Int) : Int := wrap32 (a + b)

/-- C `int32_t` multiplication. -/
def mul32 (a b : Int) : Int := wrap32 (a * b)

/-- Saturation of an `int32` sum into the `int8` range, exactly as the two
`if` statements of `scalar_matmul_int8` perform it. -/
def saturate8 (s : Int) : Int := if s > 127 then 127 else if s < -128 then -128 else s

/-- C conversion of an unsigned 64-bit value to `int8_t`: truncate mod 256 and
reinterpret the top bit as the sign. -/
def toInt8 (n : Nat) : Int :=
  if n % 256 < 128 then ((n % 256 : Nat) : Int) else ((n % 256 : Nat) : Int) - 256

/-- C conversion of an unsigned 64-bit value to `int32_t`: truncate mod `2^32`
and reinterpret the top bit as the sign. -/
def toInt32 (n : Nat) : Int :=
  if n % 2 ^ 32 < 2 ^ 31 then ((n % 2 ^ 32 : Nat) : Int) else ((n % 2 ^ 32 : Nat) : Int) - 2 ^ 32

/-- C `size_t` subtraction `a - b` (unsigned 64-bit, wraps modulo `2^64`). -/
def size_t_sub (a b : Nat) : Nat := (a + (2 ^ 64 - b)) % 2 ^ 64

/-- Value `init_matrix_int8` writes into cell `(i, j)`: the C source computes
`((seed + i * DIM + j) % 16) - 8` in `size_t` arithmetic and stores the result
into an `elem_t` (`int8_t`) cell. -/
def init_matrix_int8_val (DIM seed i j : Nat) : Int :=
  toInt8 (size_t_sub ((seed + i * DIM + j) % 2 ^ 64 % 16) 8)

/-- Value `init_matrix_int32` writes at index `i`: the C source computes
`((seed + i) % 64) - 32` in `size_t` arithmetic and stores into `int32_t`. -/
def init_matrix_int32_val (seed i : Nat) : Int :=
  toInt32 (size_t_sub ((seed + i) % 2 ^ 64 % 64) 32)

/-- Value `init_vector_int32` writes at index `i`: the C source computes
`((seed + i) % 100) - 50` in `size_t` arithmetic and stores into `int32_t`. -/
def init_vector_int32_val (seed i : Nat) : Int :=
  toInt32 (size_t_sub ((seed + i) % 2 ^ 64 % 100) 50)

/-- A loop `for (i = 0; i < len; i++) buf[i] = v(i);` over a list buffer. -/
def setRange (len : Nat) (v : Nat → Int) (b : List Int) : List Int :=
  (List.range len).foldl (fun acc i => acc.set i (v i)) b

/-- `init_vector_int32(vec, len, seed)` embedded on a list buffer. -/
def init_vector_int32 (b : List Int) (len seed : Nat) : List Int :=
  setRange len (init_vector_int32_val seed) b

/-- `init_matrix_int8(mat, seed)` embedded on a row-list buffer: the outer C
loop walks rows `i < DIM`, the inner loop overwrites `mat[i][j]` for `j < DIM`. -/
def init_matrix_int8 (DIM : Nat) (m : List (List Int)) (seed : Nat) : List (List Int) :=
  (List.range DIM).foldl
    (fun acc i => acc.set i (setRange DIM (init_matrix_int8_val DIM seed i) (acc.getD i []))) m

/-- `scalar_matmul_int8`: triple loop, `int32` accumulator, `int8` saturation
on store.  The fold over `k` mirrors `sum += (int32_t)A[i][k] * (int32_t)B[k][j]`. -/
def scalar_matmul_int8 {DIM : Nat} (A B : Fin DIM → Fin DIM → Int) : Fin DIM → Fin DIM → Int :=
  fun i j =>
    saturate8 ((List.finRange DIM).foldl (fun s k => add32 s (mul32 (A i k) (B k j))) 0)

/-- Body of both SAXPY kernels: `y[i] = a * x[i] + y[i]` in `int32` arithmetic. -/
def saxpyOp (a xi yi : Int) : Int := add32 (mul32 a xi) yi

/-- The loop of `scalar_saxpy(a, x, y, n)`, threading the `(x, y)` memory pair
so that the absence of stores to `x` is part of the embedding. -/
def scalar_saxpy_go (a : Int) (n i : Nat) (s : (Nat → Int) × (Nat → Int)) :
    (Nat → Int) × (Nat → Int) :=
  if _h : i < n then
    scalar_saxpy_go a n (i + 1) (s.1, Function.update s.2 i (saxpyOp a (s.1 i) (s.2 i)))
  else s
termination_by n - i
decreasing_by omega

/-- `scalar_saxpy(a, x, y, n)`: returns the final `(x, y)` memories. -/
def scalar_saxpy (a : Int) (x y : Nat → Int) (n : Nat) : (Nat → Int) × (Nat → Int) :=
  scalar_saxpy_go a n 0 (x, y)

/-- The chunked loop of `ara_vector_saxpy`: each iteration negotiates
`vl = min n vlmax` (the `vsetvli` semantics), loads the `x` and `y` chunks,
computes `a * x + y` elementwise, stores back over `y`'s chunk, advances both
pointers by `vl` and decrements `n`.  `off` is the common pointer offset.
If `vlmax = 0` the C loop would never terminate; the embedding returns `y`
unchanged in that (hardware-impossible) case. -/
def ara_vector_saxpy_go (vlmax : Nat) (a : Int) (x y : Nat → Int) (off n : Nat) : Nat → Int :=
  if _h : n = 0 ∨ vlmax = 0 then y
  else
    ara_vector_saxpy_go vlmax a x
      (fun j => if off ≤ j ∧ j < off + min n vlmax then saxpyOp a (x j) (y j) else y j)
      (off + min n vlmax) (n - min n vlmax)
termination_by n
decreasing_by omega

/-- `ara_vector_saxpy(a, x, y, n)` with hardware maximum vector length `vlmax`. -/
def ara_vector_saxpy (vlmax : Nat) (a : Int) (x y : Nat → Int) (n : Nat) : Nat → Int :=
  ara_vector_saxpy_go vlmax a x y 0 n

/-- Row-major cell order in which the verification loops scan a `DIM×DIM`
matrix. -/
def cellsRM (DIM : Nat) : List (Nat × Nat) :=
  (List.range DIM).flatMap fun i => (List.range DIM).map fun j => (i, j)

/-- The per-cell mismatch test of the Gemmini verification loops:
`diff < -1 || diff > 1` for `diff = (int)C[i][j] - (int)ref[i][j]`. -/
def gemminiMismatch (C ref : Nat → Nat → Int) (c : Nat × Nat) : Prop :=
  C c.1 c.2 - ref c.1 c.2 < -1 ∨ 1 < C c.1 c.2 - ref c.1 c.2

instance (C ref : Nat → Nat → Int) (c : Nat × Nat) : Decidable (gemminiMismatch C ref c) := by
  unfold gemminiMismatch; exact inferInstance

/-- The `errors` counter produced by the Gemmini verification loops in
`test_gemmini_matmul` / `test_gemmini_performance`: the scan runs in row-major
order and both loop conditions carry `errors < 5`, so a cell is examined (and
counted, and printed) only while fewer than 5 mismatches have been seen. -/
def gemminiVerifyErrors (DIM : Nat) (C ref : Nat → Nat → Int) : Nat :=
  (cellsRM DIM).foldl
    (fun errors c => if errors < 5 ∧ gemminiMismatch C ref c then errors + 1 else errors) 0

/-- Number of cells of the whole `DIM×DIM` matrix whose difference exceeds the
tolerance (what the spec calls the total mismatch count). -/
def totalMismatchCount (DIM : Nat) (C ref : Nat → Nat → Int) : Nat :=
  (cellsRM DIM).countP fun c => decide (gemminiMismatch C ref c)

/-- The `errors` counter of the Ara SAXPY verification loop in
`test_ara_performance` (`vec_y[i] != vec_ref[i]`, capped scan at 5). -/
def araVerifyErrors (ys rs : List Int) : Nat :=
  (ys.zip rs).foldl
    (fun errors p => if errors < 5 ∧ p.1 ≠ p.2 then errors + 1 else errors) 0

/-- `test_scalar_matmul` (ara_gemmini_compare.c) returns 0 unconditionally. -/
def test_scalar_matmul_ret : Nat := 0

/-- `test_gemmini_matmul` (ara_gemmini_compare.c): after the verification scan
it prints one of two messages but returns 0 on both paths. -/
def test_gemmini_matmul_ret (DIM : Nat) (C ref : Nat → Nat → Int) : Nat :=
  if gemminiVerifyErrors DIM C ref = 0 then 0 else 0

/-- `test_performance_comparison` (ara_gemmini_compare.c) returns 0. -/
def test_performance_comparison_ret : Nat := 0

/-- Process exit code of `ara_gemmini_compare.c`: `result |= test(...)` over the
three phases, then `exit(result)`. -/
def ara_gemmini_compare_exit (DIM : Nat) (C ref : Nat → Nat → Int) : Nat :=
  0 ||| test_scalar_matmul_ret ||| test_gemmini_matmul_ret DIM C ref |||
    test_performance_comparison_ret

/-- `test_scalar_performance` (ara_gemmini_scalar_compare.c) returns 0. -/
def test_scalar_performance_ret : Nat := 0

/-- `test_ara_performance` (ara_gemmini_scalar_compare.c): returns 1 when the
SAXPY verification scan saw any mismatch, else 0. -/
def test_ara_performance_ret (ys rs : List Int) : Nat :=
  if araVerifyErrors ys rs = 0 then 0 else 1

/-- `test_gemmini_performance` (ara_gemmini_scalar_compare.c): prints PASSED
when the scan saw no mismatch, and returns 0 on every path. -/
def test_gemmini_performance_ret (DIM : Nat) (C ref : Nat → Nat → Int) : Nat :=
  if gemminiVerifyErrors DIM C ref = 0 then 0 else 0

/-- `test_comparison` (ara_gemmini_scalar_compare.c) returns 0. -/
def test_comparison_ret : Nat := 0

/-- Process exit code of `ara_gemmini_scalar_compare.c`: OR of the four phase
returns. -/
def ara_gemmini_scalar_compare_exit (ys rs : List Int) (DIM : Nat)
    (C ref : Nat → Nat → Int) : Nat :=
  0 ||| test_scalar_performance_ret ||| test_ara_performance_ret ys rs |||
    test_gemmini_performance_ret DIM C ref ||| test_comparison_ret

/-- The speedup computation of `test_performance_comparison`
(ara_gemmini_compare.c line 314): `scalar_cycles / gemmini_cycles`, an
unguarded unsigned division.  Division by zero is undefined in C, so the
embedding returns `none` for a zero denominator and the quotient otherwise. -/
def test_performance_comparison_speedup (scalar_cycles gemmini_cycles : Nat) : Option Nat :=
  if gemmini_cycles = 0 then none else some (scalar_cycles / gemmini_cycles)

/-- The matmul speedup computation of `test_comparison`
(ara_gemmini_scalar_compare.c line 495): likewise an unguarded division. -/
def test_comparison_matmul_speedup (scalar_matmul_cycles gemmini_matmul_cycles : Nat) :
    Option Nat :=
  if gemmini_matmul_cycles = 0 then none else some (scalar_matmul_cycles / gemmini_matmul_cycles)

/-- Gemmini protocol operations issued by the benchmarks. -/
inductive GOp where
  | flush : GOp
  | configLd : Nat → GOp
  | configSt : Nat → GOp
  | mvinA : Nat → GOp
  | mvinB : Nat → GOp
  | configEx : GOp
  | preloadZeros : Nat → GOp
  | computePreloaded : Nat → Nat → GOp
  | mvout : Nat → GOp
  | fence : GOp
deriving DecidableEq

/-- Gemmini operations issued by `test_gemmini_matmul` (ara_gemmini_compare.c),
in program order: `gemmini_flush(0)`, then the timed protocol sequence with
`A_sp_addr = 0`, `B_sp_addr = DIM`, `C_sp_addr = 2*DIM` and row stride
`DIM * sizeof(elem_t)` bytes. -/
def test_gemmini_matmul_trace (DIM : Nat) : List GOp :=
  [GOp.flush, GOp.configLd (DIM * 1), GOp.configSt (DIM * 1), GOp.mvinA 0, GOp.mvinB DIM,
   GOp.configEx, GOp.preloadZeros (2 * DIM), GOp.computePreloaded 0 DIM, GOp.mvout (2 * DIM),
   GOp.fence]

/-- Gemmini operations issued by `test_performance_comparison`
(ara_gemmini_compare.c), in program order. -/
def test_performance_comparison_trace (DIM : Nat) : List GOp :=
  [GOp.flush, GOp.configLd (DIM * 1), GOp.configSt (DIM * 1), GOp.mvinA 0, GOp.mvinB DIM,
   GOp.configEx, GOp.preloadZeros (2 * DIM), GOp.computePreloaded 0 DIM, GOp.mvout (2 * DIM),
   GOp.fence]

/-- Gemmini operations issued by `test_gemmini_performance`
(ara_gemmini_scalar_compare.c), in program order. -/
def test_gemmini_performance_trace (DIM : Nat) : List GOp :=
  [GOp.flush, GOp.configLd (DIM * 1), GOp.configSt (DIM * 1), GOp.mvinA 0, GOp.mvinB DIM,
   GOp.configEx, GOp.preloadZeros (2 * DIM), GOp.computePreloaded 0 DIM, GOp.mvout (2 * DIM),
   GOp.fence]

/-- Gemmini operations issued by `test_comparison`
(ara_gemmini_scalar_compare.c), in program order. -/
def test_comparison_trace (DIM : Nat) : List GOp :=
  [GOp.flush, GOp.configLd (DIM * 1), GOp.configSt (DIM * 1), GOp.mvinA 0, GOp.mvinB DIM,
   GOp.configEx, GOp.preloadZeros (2 * DIM), GOp.computePreloaded 0 DIM, GOp.mvout (2 * DIM),
   GOp.fence]

/-- The operation order the claim prescribes: configure load stride, configure
store stride, move-in A, move-in B, configure execute mode, preload zeros,
compute, move-out, fence, with A at scratchpad 0, B at `DIM`, C at `2*DIM`. -/
def gemminiProtocolOrder (DIM : Nat) : List GOp :=
  [GOp.configLd (DIM * 1), GOp.configSt (DIM * 1), GOp.mvinA 0, GOp.mvinB DIM, GOp.configEx,
   GOp.preloadZeros (2 * DIM), GOp.computePreloaded 0 DIM, GOp.mvout (2 * DIM), GOp.fence]

/-- Scratchpad region used for operand A: rows `[0, DIM)`. -/
def spadRegionA (DIM : Nat) : Finset Nat := Finset.Ico 0 DIM

/-- Scratchpad region used for operand B: rows `[DIM, 2*DIM)`. -/
def spadRegionB (DIM : Nat) : Finset Nat := Finset.Ico DIM (2 * DIM)

/-- Scratchpad region used for result C: rows `[2*DIM, 3*DIM)`. -/
def spadRegionC (DIM : Nat) : Finset Nat := Finset.Ico (2 * DIM) (3 * DIM)

/-! ## Arithmetic helper lemmas -/

theorem wrap32_eq_of {x : Int} (h1 : -(2 ^ 31) ≤ x) (h2 : x < 2 ^ 31) : wrap32 x = x := by
  unfold wrap32
  have h3 : (0 : Int) ≤ x + 2 ^ 31 := by omega
  have h4 : x + 2 ^ 31 < 2 ^ 32 := by omega
  rw [Int.emod_eq_of_lt h3 h4]
  omega

theorem toInt8_size_t_sub {r c : Nat} (hr : r < 128) (hc : c ≤ 128) :
    toInt8 (size_t_sub r c) = (r : Int) - c := by
  unfold toInt8 size_t_sub
  split <;> omega

theorem toInt32_size_t_sub {r c : Nat} (hr : r < 2 ^ 31) (hc : c ≤ 2 ^ 31) :
    toInt32 (size_t_sub r c) = (r : Int) - c := by
  unfold toInt32 size_t_sub
  split <;> omega

/-! ## C7: generator value formulas -/

/-- C7: for every seed the narrow-matrix generator writes exactly
`((seed + i*DIM + j) mod 16) - 8` (values in [-8, 7]); the wide matrix
generator writes `((seed + i) mod 64) - 32` (values in [-32, 31]); the SAXPY
vector generator writes `((seed + i) mod 100) - 50` (values in [-50, 49]). -/
theorem init_values_formula :
    (∀ DIM seed i j : Nat, seed < 2 ^ 32 → DIM ≤ 2 ^ 16 → i < DIM → j < DIM →
      init_matrix_int8_val DIM seed i j = ((seed + i * DIM + j) % 16 : Nat) - 8 ∧
      -8 ≤ init_matrix_int8_val DIM seed i j ∧ init_matrix_int8_val DIM seed i j ≤ 7) ∧
    (∀ seed i : Nat, seed < 2 ^ 32 → i < 2 ^ 32 →
      init_matrix_int32_val seed i = ((seed + i) % 64 : Nat) - 32 ∧
      -32 ≤ init_matrix_int32_val seed i ∧ init_matrix_int32_val seed i ≤ 31) ∧
    (∀ seed i : Nat, seed < 2 ^ 32 → i < 2 ^ 32 →
      init_vector_int32_val seed i = ((seed + i) % 100 : Nat) - 50 ∧
      -50 ≤ init_vector_int32_val seed i ∧ init_vector_int32_val seed i ≤ 49) := by
  refine ⟨?_, ?_, ?_⟩
  · intro DIM seed i j hs hD hi hj
    have h1 : i * DIM + j < DIM * DIM := by
      calc i * DIM + j < i * DIM + DIM := by omega
        _ = (i + 1) * DIM := by ring
        _ ≤ DIM * DIM := Nat.mul_le_mul_right DIM hi
    have h2 : DIM * DIM ≤ 2 ^ 32 := le_trans (Nat.mul_le_mul hD hD) (by norm_num)
    have hij : i * DIM + j < 2 ^ 32 := lt_of_lt_of_le h1 h2
    have hsum : seed + i * DIM + j < 2 ^ 64 := by
      rw [Nat.add_assoc]
      calc seed + (i * DIM + j) < 2 ^ 32 + 2 ^ 32 := Nat.add_lt_add hs hij
        _ ≤ 2 ^ 64 := by norm_num
    have hr : (seed + i * DIM + j) % 16 < 16 := Nat.mod_lt _ (by norm_num)
    unfold init_matrix_int8_val
    rw [Nat.mod_eq_of_lt hsum, toInt8_size_t_sub (lt_trans hr (by norm_num)) (by norm_num)]
    refine ⟨rfl, by omega, by omega⟩
  · intro seed i hs hi
    have hsum : seed + i < 2 ^ 64 := by omega
    have hr : (seed + i) % 64 < 64 := Nat.mod_lt _ (by norm_num)
    unfold init_matrix_int32_val
    rw [Nat.mod_eq_of_lt hsum, toInt32_size_t_sub (lt_trans hr (by norm_num)) (by norm_num)]
    refine ⟨rfl, by omega, by omega⟩
  · intro seed i hs hi
    have hsum : seed + i < 2 ^ 64 := by omega
    have hr : (seed + i) % 100 < 100 := Nat.mod_lt _ (by norm_num)
    unfold init_vector_int32_val
    rw [Nat.mod_eq_of_lt hsum, toInt32_size_t_sub (lt_trans hr (by norm_num)) (by norm_num)]
    refine ⟨rfl, by omega, by omega⟩

theorem init_values_formula_witness :
    (3 : Nat) < 2 ^ 32 ∧ (16 : Nat) ≤ 2 ^ 16 ∧
      init_matrix_int8_val 16 3 1 2 = ((3 + 1 * 16 + 2) % 16 : Nat) - 8 :=
  ⟨by norm_num, by norm_num,
    (init_values_formula.1 16 3 1 2 (by norm_num) (by norm_num) (by norm_num) (by norm_num)).1⟩

/-! ## C6: the speedup divisions are not guarded against zero -/

/-- C6 (code_bug evidence): with a zero accelerated-cycle count the reporting
code performs `scalar_cycles / gemmini_cycles` with no zero-denominator guard,
so no defined sentinel value is produced (the embedding yields `none`). -/
theorem speedup_division_unguarded :
    test_performance_comparison_speedup 1000 0 = none ∧
    test_comparison_matmul_speedup 1000 0 = none := ⟨rfl, rfl⟩

/-! ## C1: protocol operation order and scratchpad region disjointness -/

/-- C1: every Gemmini benchmark phase issues, after the initial flush, exactly
the prescribed operation sequence (configure load stride, configure store
stride, move-in A, move-in B, configure execute mode, preload zeros, compute,
move-out, fence), and the scratchpad regions `[0, DIM)`, `[DIM, 2*DIM)`,
`[2*DIM, 3*DIM)` used for A, B, C are pairwise disjoint. -/
theorem gemmini_phase_protocol_order (DIM : Nat) :
    test_gemmini_matmul_trace DIM = GOp.flush :: gemminiProtocolOrder DIM ∧
    test_performance_comparison_trace DIM = GOp.flush :: gemminiProtocolOrder DIM ∧
    test_gemmini_performance_trace DIM = GOp.flush :: gemminiProtocolOrder DIM ∧
    test_comparison_trace DIM = GOp.flush :: gemminiProtocolOrder DIM ∧
    Disjoint (spadRegionA DIM) (spadRegionB DIM) ∧
    Disjoint (spadRegionA DIM) (spadRegionC DIM) ∧
    Disjoint (spadRegionB DIM) (spadRegionC DIM) := by
  refine ⟨rfl, rfl, rfl, rfl, ?_, ?_, ?_⟩ <;>
  · rw [Finset.disjoint_left]
    intro x hx hy
    simp only [spadRegionA, spadRegionB, spadRegionC, Finset.mem_Ico] at hx hy
    omega

/-! ## C4: the verification scan caps its count at 5 -/

theorem gemmini_fold_min (C ref : Nat → Nat → Int) :
    ∀ (l : List (Nat × Nat)) (e : Nat), e ≤ 5 →
      l.foldl (fun errors c => if errors < 5 ∧ gemminiMismatch C ref c then errors + 1 else errors)
          e =
        min (e + l.countP fun c => decide (gemminiMismatch C ref c)) 5 := by
  intro l
  induction l with
  | nil =>
    intro e he
    simp only [List.foldl_nil, List.countP_nil, Nat.add_zero]
    omega
  | cons c l ih =>
    intro e he
    simp only [List.foldl_cons, List.countP_cons]
    by_cases hm : gemminiMismatch C ref c
    · have hd : (decide (gemminiMismatch C ref c)) = true := decide_eq_true hm
      by_cases he5 : e < 5
      · rw [if_pos ⟨he5, hm⟩, ih (e + 1) (by omega)]
        simp only [hd, if_true]
        omega
      · rw [if_neg fun hcon => he5 hcon.1, ih e he]
        simp only [hd, if_true]
        omega
    · have hd : (decide (gemminiMismatch C ref c)) = false := decide_eq_false hm
      rw [if_neg fun hcon => hm hcon.2, ih e he]
      simp [hd]

/-- C4 (counterexample): with every cell differing by 10, the scan stops after
5 recorded mismatches while the whole 16×16 matrix has 256 mismatching cells,
so the code does not count all mismatches. -/
theorem gemmini_verify_count_cap_counterexample :
    gemminiVerifyErrors 16 (fun _ _ => 10) (fun _ _ => 0) = 5 ∧
    totalMismatchCount 16 (fun _ _ => 10) (fun _ _ => 0) = 256 ∧
    gemminiVerifyErrors 16 (fun _ _ => 10) (fun _ _ => 0) ≠
      totalMismatchCount 16 (fun _ _ => 10) (fun _ _ => 0) := by
  refine ⟨?_, ?_, ?_⟩ <;> decide

/-- C4 (amended): the verification scan records mismatching cells in row-major
order but stops as soon as 5 mismatches have been counted, so the reported
error count equals `min (total mismatches) 5`; in particular it is zero exactly
when no cell of the whole DIM×DIM matrix mismatches beyond the tolerance. -/
theorem gemminiVerifyErrors_capped (DIM : Nat) (C ref : Nat → Nat → Int) :
    gemminiVerifyErrors DIM C ref = min (totalMismatchCount DIM C ref) 5 ∧
    (gemminiVerifyErrors DIM C ref = 0 ↔ totalMismatchCount DIM C ref = 0) := by
  have h := gemmini_fold_min C ref (cellsRM DIM) 0 (by omega)
  unfold gemminiVerifyErrors totalMismatchCount
  rw [h]
  constructor
  · omega
  · omega

/-! ## C5: the exit code of ara_gemmini_compare.c ignores mismatches -/

/-- C5 (counterexample): a run whose Gemmini verification records mismatches
(every cell differs by 5) still exits with code 0, because
`test_gemmini_matmul` returns 0 on both of its paths. -/
theorem ara_gemmini_compare_exit_mismatch_counterexample :
    0 < gemminiVerifyErrors 16 (fun _ _ => 5) (fun _ _ => 0) ∧
    ara_gemmini_compare_exit 16 (fun _ _ => 5) (fun _ _ => 0) = 0 := by
  constructor <;> decide

/-- C5 (amended): the driver ORs the three phase return values into the exit
code, but every phase of ara_gemmini_compare.c returns 0 unconditionally, so
the process exit code is 0 regardless of verification mismatches. -/
theorem ara_gemmini_compare_exit_always_zero (DIM : Nat) (C ref : Nat → Nat → Int) :
    ara_gemmini_compare_exit DIM C ref = 0 := by
  unfold ara_gemmini_compare_exit test_scalar_matmul_ret test_gemmini_matmul_ret
    test_performance_comparison_ret
  split <;> decide

/-! ## SAXPY loop closed forms -/

theorem scalar_saxpy_go_eq (a : Int) (n : Nat) :
    ∀ (d i : Nat), n - i ≤ d → ∀ (s : (Nat → Int) × (Nat → Int)),
      scalar_saxpy_go a n i s =
        (s.1, fun j => if i ≤ j ∧ j < n then saxpyOp a (s.1 j) (s.2 j) else s.2 j) := by
  intro d
  induction d with
  | zero =>
    intro i hi s
    obtain ⟨x, y⟩ := s
    unfold scalar_saxpy_go
    rw [dif_neg (by omega)]
    simp only [Prod.mk.injEq]
    exact ⟨trivial, funext fun j => (if_neg (by omega)).symm⟩
  | succ d ih =>
    intro i hi s
    obtain ⟨x, y⟩ := s
    unfold scalar_saxpy_go
    by_cases hin : i < n
    · rw [dif_pos hin, ih (i + 1) (by omega) _]
      simp only [Prod.mk.injEq]
      refine ⟨trivial, funext fun j => ?_⟩
      rcases eq_or_ne j i with rfl | hne
      · rw [if_neg (by omega), Function.update_same, if_pos ⟨le_refl j, hin⟩]
      · rw [Function.update_noteq hne]
        by_cases hj : i + 1 ≤ j ∧ j < n
        · rw [if_pos hj, if_pos (by omega)]
        · rw [if_neg hj, if_neg (by omega)]
    · rw [dif_neg hin]
      simp only [Prod.mk.injEq]
      exact ⟨trivial, funext fun j => (if_neg (by omega)).symm⟩

theorem scalar_saxpy_eq (a : Int) (x y : Nat → Int) (n : Nat) :
    scalar_saxpy a x y n = (x, fun j => if j < n then saxpyOp a (x j) (y j) else y j) := by
  unfold scalar_saxpy
  rw [scalar_saxpy_go_eq a n (n - 0) 0 le_rfl (x, y)]
  simp only [Prod.mk.injEq]
  refine ⟨trivial, funext fun j => ?_⟩
  by_cases hj : j < n
  · rw [if_pos ⟨Nat.zero_le j, hj⟩, if_pos hj]
  · rw [if_neg fun hc => hj hc.2, if_neg hj]

theorem ara_vector_saxpy_go_eq (vlmax : Nat) (hv : 1 ≤ vlmax) (a : Int) (x : Nat → Int) :
    ∀ (d n : Nat), n ≤ d → ∀ (off : Nat) (y : Nat → Int),
      ara_vector_saxpy_go vlmax a x y off n =
        fun j => if off ≤ j ∧ j < off + n then saxpyOp a (x j) (y j) else y j := by
  intro d
  induction d with
  | zero =>
    intro n hn off y
    have hn0 : n = 0 := by omega
    subst hn0
    unfold ara_vector_saxpy_go
    rw [dif_pos (Or.inl rfl)]
    exact funext fun j => (if_neg (by omega)).symm
  | succ d ih =>
    intro n hn off y
    by_cases hn0 : n = 0
    · subst hn0
      unfold ara_vector_saxpy_go
      rw [dif_pos (Or.inl rfl)]
      exact funext fun j => (if_neg (by omega)).symm
    · have hvl1 : 1 ≤ min n vlmax := by omega
      have hvln : min n vlmax ≤ n := Nat.min_le_left n vlmax
      unfold ara_vector_saxpy_go
      rw [dif_neg (by omega), ih (n - min n vlmax) (by omega) (off + min n vlmax) _]
      funext j
      dsimp only
      by_cases hj1 : off + min n vlmax ≤ j ∧ j < off + min n vlmax + (n - min n vlmax)
      · rw [if_pos hj1, if_neg (by omega), if_pos (by omega)]
      · by_cases hj2 : off ≤ j ∧ j < off + min n vlmax
        · rw [if_neg hj1, if_pos hj2, if_pos (by omega)]
        · rw [if_neg hj1, if_neg hj2, if_neg (by omega)]

/-! ## C3: the Ara vector SAXPY refines the scalar SAXPY -/

/-- C3: for every alpha, every length `n` and every pair of buffers, the
chunked vector kernel leaves `y` elementwise equal to what the scalar SAXPY
produces on an independent copy of the original `y` — including `n = 0`,
`n < vlmax`, and `n` not a multiple of `vlmax` (the final chunk negotiates a
smaller `vl = min n vlmax`).  The only assumption is that the hardware
maximum vector length is positive. -/
theorem ara_vector_saxpy_matches_scalar (vlmax : Nat) (hv : 1 ≤ vlmax) (a : Int)
    (x y : Nat → Int) (n : Nat) :
    ara_vector_saxpy vlmax a x y n = (scalar_saxpy a x y n).2 := by
  unfold ara_vector_saxpy
  rw [ara_vector_saxpy_go_eq vlmax hv a x n n le_rfl 0 y, scalar_saxpy_eq]
  funext j
  dsimp only
  by_cases hj : j < n
  · rw [if_pos ⟨Nat.zero_le j, by omega⟩, if_pos hj]
  · rw [if_neg (by omega), if_neg hj]

theorem ara_vector_saxpy_matches_scalar_witness :
    (1 : Nat) ≤ 4 ∧
      ara_vector_saxpy 4 3 (fun j => (j : Int)) (fun _ => 1) 7 =
        (scalar_saxpy 3 (fun j => (j : Int)) (fun _ => 1) 7).2 :=
  ⟨by decide, ara_vector_saxpy_matches_scalar 4 (by decide) 3 _ _ 7⟩

/-! ## C10: frame property of scalar_saxpy -/

/-- C10: `scalar_saxpy` writes `saxpyOp a (x j) (y j)` (the `int32` rendering
of `a*x[j] + y[j]`) to exactly the indices `j < n` of `y`, leaves `y` at
indices `≥ n` unchanged, and never stores to `x`; when the `int32` products
and sums do not overflow, the stored value is exactly `a * x j + y j`. -/
theorem scalar_saxpy_frame (a : Int) (x y : Nat → Int) (n : Nat) :
    (scalar_saxpy a x y n).1 = x ∧
    (scalar_saxpy a x y n).2 = (fun j => if j < n then saxpyOp a (x j) (y j) else y j) ∧
    (∀ j, j < n → -(2 ^ 31) ≤ a * x j → a * x j < 2 ^ 31 →
      -(2 ^ 31) ≤ a * x j + y j → a * x j + y j < 2 ^ 31 →
      (scalar_saxpy a x y n).2 j = a * x j + y j) := by
  rw [scalar_saxpy_eq]
  refine ⟨rfl, rfl, ?_⟩
  intro j hj h1 h2 h3 h4
  show (if j < n then saxpyOp a (x j) (y j) else y j) = a * x j + y j
  rw [if_pos hj]
  unfold saxpyOp mul32 add32
  rw [wrap32_eq_of h1 h2, wrap32_eq_of h3 h4]

theorem scalar_saxpy_frame_witness :
    (0 : Nat) < 1 ∧ (scalar_saxpy 2 (fun _ => 3) (fun _ => 4) 1).2 0 = 2 * 3 + 4 :=
  ⟨by decide,
    (scalar_saxpy_frame 2 (fun _ => 3) (fun _ => 4) 1).2.2 0 (by decide) (by decide) (by decide)
      (by decide) (by decide)⟩

/-! ## C9: exit code of ara_gemmini_scalar_compare.c -/

theorem ara_fold_min :
    ∀ (l : List (Int × Int)) (e : Nat), e ≤ 5 →
      l.foldl (fun errors p => if errors < 5 ∧ p.1 ≠ p.2 then errors + 1 else errors) e =
        min (e + l.countP fun p => decide (p.1 ≠ p.2)) 5 := by
  intro l
  induction l with
  | nil =>
    intro e he
    simp only [List.foldl_nil, List.countP_nil, Nat.add_zero]
    omega
  | cons p l ih =>
    intro e he
    simp only [List.foldl_cons, List.countP_cons]
    by_cases hm : p.1 ≠ p.2
    · have hd : (decide (p.1 ≠ p.2)) = true := decide_eq_true hm
      by_cases he5 : e < 5
      · rw [if_pos ⟨he5, hm⟩, ih (e + 1) (by omega)]
        simp only [hd, if_true]
        omega
      · rw [if_neg fun hcon => he5 hcon.1, ih e he]
        simp only [hd, if_true]
        omega
    · have hd : (decide (p.1 ≠ p.2)) = false := decide_eq_false hm
      rw [if_neg fun hcon => hm hcon.2, ih e he]
      simp [hd]

/-- C9: in ara_gemmini_scalar_compare.c the process exit code is non-zero
exactly when the Ara SAXPY verification found a mismatching element:
`test_ara_performance` returns 1 precisely when some `vec_y[i]` differs from
`vec_ref[i]`, while the other three phase functions return 0 unconditionally,
so Gemmini verification mismatches never affect the exit code. -/
theorem scalar_compare_exit_iff_ara_mismatch (ys rs : List Int) (DIM : Nat)
    (C ref : Nat → Nat → Int) :
    (test_ara_performance_ret ys rs = 1 ↔ ∃ p ∈ ys.zip rs, p.1 ≠ p.2) ∧
    test_scalar_performance_ret = 0 ∧
    test_gemmini_performance_ret DIM C ref = 0 ∧
    test_comparison_ret = 0 ∧
    (ara_gemmini_scalar_compare_exit ys rs DIM C ref ≠ 0 ↔ ∃ p ∈ ys.zip rs, p.1 ≠ p.2) := by
  have hgem : test_gemmini_performance_ret DIM C ref = 0 := by
    unfold test_gemmini_performance_ret
    split <;> rfl
  have hkey : araVerifyErrors ys rs = 0 ↔ ∀ p ∈ ys.zip rs, p.1 = p.2 := by
    unfold araVerifyErrors
    rw [ara_fold_min (ys.zip rs) 0 (by omega)]
    constructor
    · intro h p hp
      have hc : (ys.zip rs).countP (fun p => decide (p.1 ≠ p.2)) = 0 := by omega
      have h2 := List.countP_eq_zero.mp hc p hp
      simpa using h2
    · intro h
      have hc : (ys.zip rs).countP (fun p => decide (p.1 ≠ p.2)) = 0 := by
        rw [List.countP_eq_zero]
        intro p hp
        simp [h p hp]
      omega
  refine ⟨?_, rfl, hgem, rfl, ?_⟩
  · unfold test_ara_performance_ret
    by_cases h0 : araVerifyErrors ys rs = 0
    · rw [if_pos h0]
      exact ⟨fun hc => absurd hc (by norm_num),
        fun ⟨p, hp, hne⟩ => absurd (hkey.mp h0 p hp) hne⟩
    · rw [if_neg h0]
      constructor
      · intro _
        by_contra hno
        push_neg at hno
        exact h0 (hkey.mpr hno)
      · intro _
        rfl
  · unfold ara_gemmini_scalar_compare_exit
    rw [hgem]
    unfold test_scalar_performance_ret test_comparison_ret
    simp only [Nat.or_zero, Nat.zero_or]
    unfold test_ara_performance_ret
    by_cases h0 : araVerifyErrors ys rs = 0
    · rw [if_pos h0]
      exact ⟨fun hc => absurd rfl hc,
        fun ⟨p, hp, hne⟩ => absurd (hkey.mp h0 p hp) hne⟩
    · rw [if_neg h0]
      constructor
      · intro _
        by_contra hno
        push_neg at hno
        exact h0 (hkey.mpr hno)
      · intro _
        norm_num

/-! ## C2: scalar_matmul_int8 computes the exact saturated dot product -/

theorem foldl_dot32_eq {I : Type} (f g : I → Int) :
    ∀ (l : List I) (s : Int),
      (∀ k ∈ l, -128 ≤ f k ∧ f k ≤ 127 ∧ -128 ≤ g k ∧ g k ≤ 127) →
      -(2 ^ 31) + 16384 * (l.length : Int) ≤ s →
      s + 16384 * (l.length : Int) ≤ 2 ^ 31 - 1 →
      l.foldl (fun acc k => add32 acc (mul32 (f k) (g k))) s =
        s + (l.map fun k => f k * g k).sum := by
  intro l
  induction l with
  | nil =>
    intro s _ _ _
    simp
  | cons k l ih =>
    intro s hb h1 h2
    obtain ⟨hf1, hf2, hg1, hg2⟩ := hb k (List.mem_cons_self k l)
    have hpow : (2 : Int) ^ 31 = 2147483648 := by norm_num
    have a1 : (0 : Int) ≤ (f k + 128) * (g k + 128) := mul_nonneg (by linarith) (by linarith)
    have a2 : (0 : Int) ≤ (127 - f k) * (127 - g k) := mul_nonneg (by linarith) (by linarith)
    have a3 : (0 : Int) ≤ (f k + 128) * (127 - g k) := mul_nonneg (by linarith) (by linarith)
    have a4 : (0 : Int) ≤ (127 - f k) * (g k + 128) := mul_nonneg (by linarith) (by linarith)
    have hp1 : f k * g k ≤ 16384 := by nlinarith
    have hp2 : -16384 ≤ f k * g k := by nlinarith
    simp only [List.length_cons] at h1 h2
    push_cast at h1 h2
    have hm : mul32 (f k) (g k) = f k * g k := by
      unfold mul32
      exact wrap32_eq_of (by linarith) (by linarith)
    have hL0 : (0 : Int) ≤ (l.length : Int) := Int.natCast_nonneg l.length
    have ha : add32 s (f k * g k) = s + f k * g k := by
      unfold add32
      exact wrap32_eq_of (by linarith) (by linarith)
    simp only [List.foldl_cons, List.map_cons, List.sum_cons]
    rw [hm, ha, ih (s + f k * g k) (fun k2 hk2 => hb k2 (List.mem_cons_of_mem k hk2))
      (by linarith) (by linarith)]
    ring

/-- C2: each cell of `scalar_matmul_int8` equals the exact dot product of the
corresponding row of A and column of B computed in a wide accumulator and then
clamped into [-128, 127]; in particular a dot product above 127 (below -128)
stores exactly 127 (exactly -128).  Inputs are int8 matrices and `DIM` is
small enough (the hardware value is 16) that the 32-bit accumulator cannot
overflow. -/
theorem scalar_matmul_int8_exact (DIM : Nat) (hD : DIM ≤ 2 ^ 16)
    (A B : Fin DIM → Fin DIM → Int)
    (hA : ∀ i j, -128 ≤ A i j ∧ A i j ≤ 127) (hB : ∀ i j, -128 ≤ B i j ∧ B i j ≤ 127)
    (i j : Fin DIM) :
    scalar_matmul_int8 A B i j = saturate8 (∑ k, A i k * B k j) ∧
    (127 < ∑ k, A i k * B k j → scalar_matmul_int8 A B i j = 127) ∧
    ((∑ k, A i k * B k j) < -128 → scalar_matmul_int8 A B i j = -128) := by
  have hlen : (List.finRange DIM).length = DIM := List.length_finRange DIM
  have hb1 : -(2 ^ 31) + 16384 * (((List.finRange DIM).length : Nat) : Int) ≤ (0 : Int) := by
    rw [hlen]; omega
  have hb2 : (0 : Int) + 16384 * (((List.finRange DIM).length : Nat) : Int) ≤ 2 ^ 31 - 1 := by
    rw [hlen]; omega
  have hfold := foldl_dot32_eq (fun k => A i k) (fun k => B k j) (List.finRange DIM) 0
    (fun k _ => ⟨(hA i k).1, (hA i k).2, (hB k j).1, (hB k j).2⟩) hb1 hb2
  have hsum : (∑ k, A i k * B k j) = ((List.finRange DIM).map fun k => A i k * B k j).sum :=
    Fin.sum_univ_def fun k => A i k * B k j
  have hmain : scalar_matmul_int8 A B i j = saturate8 (∑ k, A i k * B k j) := by
    unfold scalar_matmul_int8
    rw [hfold, hsum, zero_add]
  refine ⟨hmain, fun hgt => ?_, fun hlt => ?_⟩
  · rw [hmain]
    unfold saturate8
    rw [if_pos hgt]
  · rw [hmain]
    unfold saturate8
    rw [if_neg (by omega), if_pos hlt]

theorem scalar_matmul_int8_exact_witness :
    (2 : Nat) ≤ 2 ^ 16 ∧
      @scalar_matmul_int8 2 (fun _ _ => 127) (fun _ _ => 127) 0 0 = 127 :=
  ⟨by norm_num,
    (scalar_matmul_int8_exact 2 (by norm_num) (fun _ _ => 127) (fun _ _ => 127)
      (fun _ _ => by norm_num) (fun _ _ => by norm_num) 0 0).2.1 (by decide)⟩

/-! ## C8: the data generators overwrite every element deterministically -/

theorem foldl_set_length {α : Type} (F : Nat → List α → α) :
    ∀ (is : List Nat) (b : List α),
      (is.foldl (fun acc i => acc.set i (F i acc)) b).length = b.length := by
  intro is
  induction is with
  | nil => intro b; rfl
  | cons i is ih =>
    intro b
    rw [List.foldl_cons, ih (b.set i (F i b)), List.length_set]

theorem foldl_set_get? (v : Nat → Int) :
    ∀ (is : List Nat) (b : List Int) (j : Nat),
      (is.foldl (fun acc i => acc.set i (v i)) b)[j]? =
        if j ∈ is ∧ j < b.length then some (v j) else b[j]? := by
  intro is
  induction is with
  | nil =>
    intro b j
    simp
  | cons i is ih =>
    intro b j
    rw [List.foldl_cons, ih (b.set i (v i)) j]
    simp only [List.length_set, List.mem_cons]
    by_cases hj : j ∈ is
    · by_cases hlt : j < b.length
      · rw [if_pos ⟨hj, hlt⟩, if_pos ⟨Or.inr hj, hlt⟩]
      · have h1 : (b.set i (v i))[j]? = none :=
          List.getElem?_eq_none (by rw [List.length_set]; omega)
        have h2 : b[j]? = none := List.getElem?_eq_none (by omega)
        rw [if_neg fun hc => hlt hc.2, if_neg fun hc => hlt hc.2, h1, h2]
    · rcases eq_or_ne i j with rfl | hne
      · by_cases hlt : i < b.length
        · rw [if_neg fun hc => hj hc.1, if_pos ⟨Or.inl rfl, hlt⟩, List.getElem?_set]
          rw [if_pos rfl, if_pos hlt]
        · have h1 : (b.set i (v i))[i]? = none :=
            List.getElem?_eq_none (by rw [List.length_set]; omega)
          have h2 : b[i]? = none := List.getElem?_eq_none (by omega)
          rw [if_neg fun hc => hj hc.1, if_neg fun hc => hlt hc.2, h1, h2]
      · have hset : (b.set i (v i))[j]? = b[j]? := by
          rw [List.getElem?_set, if_neg hne]
        have hnR : ¬((j = i ∨ j ∈ is) ∧ j < b.length) :=
          fun hc => hc.1.elim (fun he => hne he.symm) hj
        rw [if_neg fun hc => hj hc.1, hset, if_neg hnR]

theorem setRange_length (len : Nat) (v : Nat → Int) (b : List Int) :
    (setRange len v b).length = b.length :=
  foldl_set_length (fun i _ => v i) (List.range len) b

theorem setRange_get? (len : Nat) (v : Nat → Int) (b : List Int) (j : Nat) :
    (setRange len v b)[j]? = if j < len ∧ j < b.length then some (v j) else b[j]? := by
  have h := foldl_set_get? v (List.range len) b j
  simp only [List.mem_range] at h
  exact h

theorem setRange_congr (len : Nat) (v : Nat → Int) (b1 b2 : List Int)
    (hlen1 : b1.length = len) (hlen2 : b2.length = len) :
    setRange len v b1 = setRange len v b2 := by
  apply List.ext_getElem?
  intro j
  rw [setRange_get?, setRange_get?]
  by_cases hj : j < len
  · rw [if_pos ⟨hj, by omega⟩, if_pos ⟨hj, by omega⟩]
  · have h1 : b1[j]? = none := List.getElem?_eq_none (by omega)
    have h2 : b2[j]? = none := List.getElem?_eq_none (by omega)
    rw [if_neg fun hc => hj hc.1, if_neg fun hc => hj hc.1, h1, h2]

theorem init_matrix_fold_get? (DIM seed : Nat) :
    ∀ (t : Nat) (m : List (List Int)) (r : Nat),
      ((List.range t).foldl
          (fun acc i =>
            acc.set i (setRange DIM (init_matrix_int8_val DIM seed i) (acc.getD i [])))
          m)[r]? =
        if r < t ∧ r < m.length
        then some (setRange DIM (init_matrix_int8_val DIM seed r) (m.getD r []))
        else m[r]? := by
  intro t
  induction t with
  | zero =>
    intro m r
    simp
  | succ t ih =>
    intro m r
    rw [List.range_succ, List.foldl_append, List.foldl_cons, List.foldl_nil]
    have hAt :
        ((List.range t).foldl
            (fun acc i =>
              acc.set i (setRange DIM (init_matrix_int8_val DIM seed i) (acc.getD i [])))
            m).getD t [] = m.getD t [] := by
      rw [List.getD_eq_getElem?_getD, ih m t, if_neg fun hc => lt_irrefl t hc.1,
        ← List.getD_eq_getElem?_getD]
    have hAlen :
        ((List.range t).foldl
            (fun acc i =>
              acc.set i (setRange DIM (init_matrix_int8_val DIM seed i) (acc.getD i [])))
            m).length = m.length :=
      foldl_set_length (fun i acc => setRange DIM (init_matrix_int8_val DIM seed i)
        (acc.getD i [])) (List.range t) m
    rw [hAt, List.getElem?_set]
    rcases eq_or_ne t r with rfl | hne
    · rw [if_pos rfl]
      by_cases hlt : t < m.length
      · rw [if_pos (by rw [hAlen]; exact hlt), if_pos ⟨Nat.lt_succ_self t, hlt⟩]
      · rw [if_neg (by rw [hAlen]; exact hlt), if_neg fun hc => hlt hc.2]
        exact (List.getElem?_eq_none (by omega)).symm
    · rw [if_neg hne, ih m r]
      by_cases hc : r < t ∧ r < m.length
      · rw [if_pos hc, if_pos ⟨by omega, hc.2⟩]
      · rw [if_neg hc, if_neg fun hc2 => hc ⟨by omega, hc2.2⟩]

/-- C8: both data generators are deterministic in seed and shape: they
overwrite every element of the buffer, so two invocations on buffers of the
same shape (whatever their previous contents) produce identical buffers, and
calling a filler twice equals calling it once. -/
theorem init_generators_deterministic :
    (∀ len seed : Nat, ∀ b1 b2 : List Int, b1.length = len → b2.length = len →
      init_vector_int32 b1 len seed = init_vector_int32 b2 len seed) ∧
    (∀ len seed : Nat, ∀ b : List Int, b.length = len →
      init_vector_int32 (init_vector_int32 b len seed) len seed =
        init_vector_int32 b len seed) ∧
    (∀ DIM seed : Nat, ∀ m1 m2 : List (List Int), m1.length = DIM → m2.length = DIM →
      (∀ r, r < DIM → (m1.getD r []).length = DIM) →
      (∀ r, r < DIM → (m2.getD r []).length = DIM) →
      init_matrix_int8 DIM m1 seed = init_matrix_int8 DIM m2 seed) := by
  refine ⟨?_, ?_, ?_⟩
  · intro len seed b1 b2 h1 h2
    exact setRange_congr len _ b1 b2 h1 h2
  · intro len seed b hb
    exact setRange_congr len _ _ b ((setRange_length len _ b).trans hb) hb
  · intro DIM seed m1 m2 h1 h2 hrow1 hrow2
    apply List.ext_getElem?
    intro r
    have e1 : (init_matrix_int8 DIM m1 seed)[r]? =
        (if r < DIM ∧ r < m1.length
         then some (setRange DIM (init_matrix_int8_val DIM seed r) (m1.getD r []))
         else m1[r]?) :=
      init_matrix_fold_get? DIM seed DIM m1 r
    have e2 : (init_matrix_int8 DIM m2 seed)[r]? =
        (if r < DIM ∧ r < m2.length
         then some (setRange DIM (init_matrix_int8_val DIM seed r) (m2.getD r []))
         else m2[r]?) :=
      init_matrix_fold_get? DIM seed DIM m2 r
    rw [e1, e2]
    by_cases hr : r < DIM
    · rw [if_pos ⟨hr, by omega⟩, if_pos ⟨hr, by omega⟩]
      exact congrArg some
        (setRange_congr DIM _ _ _ (hrow1 r hr) (hrow2 r hr))
    · have hn1 : m1[r]? = none := List.getElem?_eq_none (by omega)
      have hn2 : m2[r]? = none := List.getElem?_eq_none (by omega)
      rw [if_neg fun hc => hr hc.1, if_neg fun hc => hr hc.1, hn1, hn2]

theorem init_generators_deterministic_witness :
    ([0, 0] : List Int).length = 2 ∧
      init_vector_int32 [0, 0] 2 7 = init_vector_int32 [5, 6] 2 7 :=
  ⟨by decide, init_generators_deterministic.1 2 7 [0, 0] [5, 6] (by decide) (by decide)⟩
